import Mathlib

/-!
Verification development for the task-agent repository (parser.py,
database.py). The Python sources are embedded shallowly: pure functions
become Lean functions, the SQLite-backed store becomes explicit state
passing over a `DBState` record, and fallible code returns `Except`.
The helper modules `utils.py` and `config.py` are imported by the sources
but are not part of the provided tree; the definitions that stand in for
them are marked `Modelled from the spec:` in their doc comments.
-/

namespace Agente

/-- Lowercasing of a character as Python str.lower acts on the character
range used by the source patterns: ASCII letters plus the accented vowels,
u-umlaut and enye of Spanish. -/
def pyLowerCh (c : Char) : Char :=
  if 65 ≤ c.toNat && c.toNat ≤ 90 then Char.ofNat (c.toNat + 32)
  else if c = 'Á' then 'á'
  else if c = 'É' then 'é'
  else if c = 'Í' then 'í'
  else if c = 'Ó' then 'ó'
  else if c = 'Ú' then 'ú'
  else if c = 'Ü' then 'ü'
  else if c = 'Ñ' then 'ñ'
  else c

/-- Python str.lower over a whole string. -/
def pyLowerStr (s : String) : String := String.mk (s.data.map pyLowerCh)

/-- Does the second list start the first? (case-sensitive). -/
def listStarts : List Char → List Char → Bool
  | [], _ => true
  | _ :: _, [] => false
  | p :: ps, c :: cs => p == c && listStarts ps cs

/-- Does pat occur as a contiguous substring of s? -/
def listHasSub (pat : List Char) : List Char → Bool
  | [] => listStarts pat []
  | c :: rest => listStarts pat (c :: rest) || listHasSub pat rest

/-- Python `pat in s` on strings: contiguous substring test. -/
def containsSub (s pat : String) : Bool := listHasSub pat.data s.data

/-- The whitespace class recognised by the embedding of Python
whitespace (space, tab, newline, carriage return). -/
def isSpaceCh (c : Char) : Bool := c == ' ' || c == '\t' || c == '\n' || c == '\r'

/-- Splitting on whitespace runs: the list of maximal nonempty runs of
non-whitespace characters. cur accumulates the current word reversed. -/
def wordsGo (cur : List Char) : List Char → List String
  | [] => if cur.isEmpty then [] else [String.mk cur.reverse]
  | c :: rest =>
    if isSpaceCh c then
      if cur.isEmpty then wordsGo [] rest
      else String.mk cur.reverse :: wordsGo [] rest
    else wordsGo (c :: cur) rest

/-- The whitespace-separated words of a string. -/
def wsWords (s : String) : List String := wordsGo [] s.data

/-- Replacement of every whitespace run by a single space followed by a
strip of the ends: Python re.sub of a whitespace-run pattern with a
single space, then str.strip. -/
def collapseWsStrip (s : String) : String :=
  String.intercalate " " (wsWords s)

/-- Diacritic stripping over the Spanish character range. -/
def stripDiacriticCh (c : Char) : Char :=
  if c = 'á' then 'a'
  else if c = 'é' then 'e'
  else if c = 'í' then 'i'
  else if c = 'ó' then 'o'
  else if c = 'ú' then 'u'
  else if c = 'ü' then 'u'
  else if c = 'ñ' then 'n'
  else c

/-- Modelled from the spec: `utils.normalize_text` (utils.py is not among
the provided source files). Spec, Data Model and Glossary: normalization
is lowercase, diacritic-stripped, whitespace-collapsed. -/
def normalize_text (s : String) : String :=
  collapseWsStrip (String.mk ((pyLowerStr s).data.map stripDiacriticCh))

/-- Helper for the modelled mention extractor: every word equal to
"cliente" (case-insensitively) contributes the word that follows it. -/
def mentionsOfWords : List String → List String
  | [] => []
  | w :: rest =>
    match rest with
    | [] => []
    | next :: _ =>
      if pyLowerStr w == "cliente" then next :: mentionsOfWords rest
      else mentionsOfWords rest

/-- Modelled from the spec: `utils.extract_client_mentions` (utils.py is
not among the provided source files). Spec, EntityExtractor: apply a
mention-extraction pattern ("cliente X", "del cliente X") to find a
candidate free-text name; at most the first mention found is used by the
callers. -/
def extract_client_mentions (text : String) : List String :=
  mentionsOfWords (wsWords text)

/-- A naive datetime: day is a day count from an epoch that falls on a
Monday, so Python weekday() is day mod 7. Calendar months are unneeded:
the source only ever adds whole days. -/
structure PyDateTime where
  day : Nat
  hour : Nat
  minute : Nat
  second : Nat
  microsecond : Nat
deriving DecidableEq, Repr

/-- datetime + timedelta(days=n). -/
def addDays (d : PyDateTime) (n : Nat) : PyDateTime := { d with day := d.day + n }

/-- .replace(hour=0, minute=0, second=0, microsecond=0). -/
def atMidnight (d : PyDateTime) : PyDateTime :=
  { d with hour := 0, minute := 0, second := 0, microsecond := 0 }

/-- Python datetime.weekday(): 0 = Monday. -/
def weekday (d : PyDateTime) : Nat := d.day % 7

/-- parser._next_weekday: the next occurrence of weekday w, strictly in
the future, at 09:00. -/
def nextWeekdayFrom (now : PyDateTime) (w : Nat) : PyDateTime :=
  let diff : Int := (w : Int) - (weekday now : Int)
  let daysAhead : Int := if diff ≤ 0 then diff + 7 else diff
  { now with
    day := now.day + daysAhead.toNat,
    hour := 9, minute := 0, second := 0, microsecond := 0 }

/-- IntentParser.DATE_PATTERNS, in source (dict) order, with the ambient
datetime.now() made explicit. -/
def DATE_PATTERNS (now : PyDateTime) : List (String × PyDateTime) :=
  [ ("hoy", atMidnight now),
    ("mañana", atMidnight (addDays now 1)),
    ("pasado mañana", atMidnight (addDays now 2)),
    ("esta semana", atMidnight now),
    ("próxima semana", atMidnight (addDays now 7)),
    ("el lunes", nextWeekdayFrom now 0),
    ("el martes", nextWeekdayFrom now 1),
    ("el miércoles", nextWeekdayFrom now 2),
    ("el jueves", nextWeekdayFrom now 3),
    ("el viernes", nextWeekdayFrom now 4),
    ("el sábado", nextWeekdayFrom now 5),
    ("el domingo", nextWeekdayFrom now 6) ]

/-- First DATE_PATTERNS entry whose keyword occurs in the lowered text. -/
def findDatePattern (tl : String) : List (String × PyDateTime) → Option PyDateTime
  | [] => none
  | (pat, d) :: rest => if containsSub tl pat then some d else findDatePattern tl rest

/-- IntentParser._extract_date. The dateparser library is external; its
parse call is passed in as dp. In the fallback branch a result whose hour
and minute are both zero is defaulted to 09:00. -/
def extract_date (dp : String → Option PyDateTime) (now : PyDateTime)
    (text : String) : Option PyDateTime :=
  let tl := pyLowerStr text
  match findDatePattern tl (DATE_PATTERNS now) with
  | some d => some d
  | none =>
    match dp text with
    | some pd =>
      if pd.hour == 0 && pd.minute == 0 then some { pd with hour := 9, minute := 0 }
      else some pd
    | none => none

/-- IntentParser.INTENT_PATTERNS in source (dict) order. Each regex group
is an alternation of literals, embedded as the list of its alternatives;
re.search of such a group holds iff some alternative is a substring. -/
def INTENT_PATTERNS : List (String × List (List String)) :=
  [ ("CREAR",
      [["crear", "nueva", "añadir", "agregar", "poner", "hacer", "tengo que", "necesito"],
       ["tarea", "recordatorio", "nota", "evento", "cosa"]]),
    ("LISTAR",
      [["listar", "mostrar", "ver", "dame", "muéstrame", "qué", "cuáles"],
       ["tareas", "pendientes", "cosas", "recordatorios"]]),
    ("CERRAR",
      [["cerrar", "completar", "terminar", "hecho", "realizado", "finalizar",
        "marcar como hecha", "da por hecha"],
       ["tarea", "tareas", "cosa", "cosas"]]),
    ("REPROGRAMAR",
      [["reprogramar", "cambiar fecha", "mover", "posponer", "aplazar", "cambiar a"]]),
    ("CAMBIAR_PRIORIDAD",
      [["cambiar prioridad", "prioridad", "urgente", "importante", "normal", "baja"]]) ]

/-- re.search of one alternation group against the lowered text. -/
def groupMatches (tl : String) (grp : List String) : Bool :=
  grp.any (fun pat => containsSub tl pat)

/-- All pattern groups of one intent match (logical AND). -/
def intentMatches (tl : String) (groups : List (List String)) : Bool :=
  groups.all (groupMatches tl)

/-- The scan loop of IntentParser._detect_intent. -/
def detectGo (tl : String) : List (String × List (List String)) → String
  | [] => "CREAR"
  | (intent, groups) :: rest =>
    if intentMatches tl groups then intent else detectGo tl rest

/-- IntentParser._detect_intent: lowercase, then first fully matching
intent in declared order, defaulting to CREAR. -/
def detect_intent (text : String) : String :=
  detectGo (pyLowerStr text) INTENT_PATTERNS

/-- IntentParser.PRIORITY_MAP in source (dict) order; the duplicated
"sin prisa" literal key of the source collapses to one entry, as in a
Python dict literal. -/
def PRIORITY_MAP : List (String × String) :=
  [("urgente", "urgent"), ("urgent", "urgent"), ("alta", "high"), ("high", "high"),
   ("importante", "high"), ("normal", "normal"), ("media", "normal"),
   ("baja", "low"), ("low", "low"), ("sin prisa", "low")]

/-- The scan loop of IntentParser._extract_priority. -/
def priorityGo (tl : String) : List (String × String) → String
  | [] => "normal"
  | (kw, pr) :: rest => if containsSub tl kw then pr else priorityGo tl rest

/-- IntentParser._extract_priority: first PRIORITY_MAP keyword contained
in the lowered text wins; none present yields normal. -/
def extract_priority (text : String) : String :=
  priorityGo (pyLowerStr text) PRIORITY_MAP

/-- Case-insensitive starts-with, the way re matching with IGNORECASE
compares a literal pattern against the text. -/
def ciStarts : List Char → List Char → Bool
  | [], _ => true
  | _ :: _, [] => false
  | p :: ps, c :: cs => pyLowerCh p == pyLowerCh c && ciStarts ps cs

/-- First alternative of the alternation that matches at this position
(re tries alternatives left to right). Empty alternatives are skipped;
every alternative in the source tables is nonempty. -/
def firstAltAt : List String → List Char → Option (List Char)
  | [], _ => none
  | a :: as, s =>
    if !a.data.isEmpty && ciStarts a.data s then some a.data else firstAltAt as s

/-- The scan of re.sub(pattern, '', text, flags=IGNORECASE) for an
alternation-of-literals pattern: at the leftmost matching position the
first matching alternative is deleted and scanning resumes after it.
fuel starts at the text length; since each step consumes at least one
character (all alternatives are nonempty) the fuel never runs out. -/
def reSubAltsGo (alts : List String) : Nat → List Char → List Char
  | 0, s => s
  | _ + 1, [] => []
  | fuel + 1, c :: rest =>
    match firstAltAt alts (c :: rest) with
    | some p => reSubAltsGo alts fuel ((c :: rest).drop p.length)
    | none => c :: reSubAltsGo alts fuel rest

/-- re.sub of an alternation of literals by the empty string. -/
def reSubAlts (alts : List String) (s : String) : String :=
  String.mk (reSubAltsGo alts s.data.length s.data)

/-- Python regex word character over the character range of the source
texts: ASCII alphanumerics, underscore, accented vowels and enye. -/
def isWordCh (c : Char) : Bool :=
  c.isAlpha || c.isDigit || c == '_'
  || c == 'á' || c == 'é' || c == 'í' || c == 'ó' || c == 'ú' || c == 'ü' || c == 'ñ'
  || c == 'Á' || c == 'É' || c == 'Í' || c == 'Ó' || c == 'Ú' || c == 'Ü' || c == 'Ñ'

/-- Whether an optional neighbouring character is a word character; the
ends of the string count as non-word. -/
def optWord : Option Char → Bool
  | some c => isWordCh c
  | none => false

/-- A regex word boundary holds between two positions iff exactly one
side is a word character. -/
def bdry (a b : Option Char) : Bool := optWord a != optWord b

/-- Does the word-bounded keyword match at the start of s, given the
character just before s in the original text? -/
def bMatchAt (kw : List Char) (prev : Option Char) (s : List Char) : Bool :=
  !kw.isEmpty && bdry prev s.head? && ciStarts kw s
  && bdry ((s.take kw.length).getLast?) ((s.drop kw.length).head?)

/-- The scan of re.sub of a word-bounded literal keyword by the empty
string: prev is the character of the original text just before the
current position, used by the boundary test. fuel as in reSubAltsGo. -/
def reSubBoundedGo (kw : List Char) : Nat → Option Char → List Char → List Char
  | 0, _, s => s
  | _ + 1, _, [] => []
  | fuel + 1, prev, c :: rest =>
    if bMatchAt kw prev (c :: rest) then
      reSubBoundedGo kw fuel (((c :: rest).take kw.length).getLast?)
        ((c :: rest).drop kw.length)
    else c :: reSubBoundedGo kw fuel (some c) rest

/-- re.sub of a word-bounded literal keyword by the empty string. -/
def reSubBounded (kw : String) (s : String) : String :=
  String.mk (reSubBoundedGo kw.data s.data.length none s.data)

/-- Length of the leading whitespace run. -/
def countWs : List Char → Nat
  | [] => 0
  | c :: rest => if isSpaceCh c then countWs rest + 1 else 0

/-- Length of the match of one alternative of the mention-removal
pattern of _extract_title at the start of s: word boundary, the
alternative, at least one whitespace character, the escaped mention,
word boundary. Mentions carry no leading whitespace, so the greedy
whitespace run is exactly the maximal one. -/
def mentionAltLen (mention : List Char) (prev : Option Char) (s : List Char)
    (alt : List Char) : Option Nat :=
  if bdry prev s.head? && ciStarts alt s then
    let rest1 := s.drop alt.length
    let wsn := countWs rest1
    if wsn == 0 then none
    else
      let rest2 := rest1.drop wsn
      if ciStarts mention rest2 then
        let n := alt.length + wsn + mention.length
        if bdry ((s.take n).getLast?) ((s.drop n).head?) then some n else none
      else none
  else none

/-- Length of a match of the full mention-removal pattern at the start
of s, trying the alternatives cliente, del cliente, para el cliente in
the order of the source pattern. -/
def mentionPhraseAt (mention : List Char) (prev : Option Char) (s : List Char) : Option Nat :=
  match mentionAltLen mention prev s "cliente".data with
  | some n => some n
  | none =>
    match mentionAltLen mention prev s "del cliente".data with
    | some n => some n
    | none => mentionAltLen mention prev s "para el cliente".data

/-- The scan of the mention-removal re.sub of _extract_title. -/
def reSubMentionGo (mention : List Char) : Nat → Option Char → List Char → List Char
  | 0, _, s => s
  | _ + 1, _, [] => []
  | fuel + 1, prev, c :: rest =>
    match mentionPhraseAt mention prev (c :: rest) with
    | some n =>
      reSubMentionGo mention fuel (((c :: rest).take n).getLast?) ((c :: rest).drop n)
    | none => c :: reSubMentionGo mention fuel (some c) rest

/-- One pass of the mention-removal re.sub for one mention. -/
def reSubMention (mention : String) (s : String) : String :=
  String.mk (reSubMentionGo mention.data s.data.length none s.data)

/-- _extract_title, first phase: strip every intent pattern, intent by
intent and group by group in dict order. -/
def stripIntentPatterns (s : String) : String :=
  INTENT_PATTERNS.foldl (fun acc p => p.2.foldl (fun a grp => reSubAlts grp a) acc) s

/-- _extract_title, second phase: strip the mention phrasing for each
extracted mention. -/
def stripMentionPhrases (mentions : List String) (s : String) : String :=
  mentions.foldl (fun acc m => reSubMention m acc) s

/-- _extract_title, third phase: strip every word-bounded PRIORITY_MAP
keyword in dict order. -/
def stripPriorityKeywords (s : String) : String :=
  PRIORITY_MAP.foldl (fun acc kv => reSubBounded kv.1 acc) s

/-- The stripping pipeline of IntentParser._extract_title before the
short-remainder fallback and the length cap. mentionsOf abstracts
utils.extract_client_mentions, which the source calls on the
intent-stripped text. -/
def cleanTitle (mentionsOf : String → List String) (text : String) : String :=
  let t1 := stripIntentPatterns text
  let t2 := stripMentionPhrases (mentionsOf t1) t1
  let t3 := stripPriorityKeywords t2
  collapseWsStrip t3

/-- Python slicing s[:n] by code points. -/
def strTake (s : String) (n : Nat) : String := String.mk (s.data.take n)

/-- IntentParser._extract_title: strip, fall back to the original text
when fewer than five characters remain, cap at 200 characters. The
intent argument is accepted and unused, as in the source. -/
def extract_title (mentionsOf : String → List String) (text : String)
    (intent : String) : String :=
  let c := cleanTitle mentionsOf text
  strTake (if c.length < 5 then text else c) 200

/-- A clients row; aliases is the JSON-decoded alias list. -/
structure ClientRow where
  id : Nat
  name : String
  normalized_name : String
  aliases : List String
deriving DecidableEq, Repr

/-- A tasks row with the columns added by the init_db migrations. -/
structure TaskRow where
  id : Nat
  user_id : Nat
  user_name : Option String
  title : String
  description : Option String
  status : String
  priority : String
  task_date : Option String
  client_id : Option Nat
  client_name_raw : Option String
  google_event_id : Option String
  google_event_link : Option String
  solution : Option String
  ampliacion : Option String
  category : Option String
deriving DecidableEq, Repr

/-- A categories row. -/
structure CategoryRow where
  id : Nat
  name : String
  icon : String
  color : String
  display_name : String
deriving DecidableEq, Repr

/-- A task_images row. -/
structure TaskImageRow where
  id : Nat
  task_id : Nat
  file_id : String
  file_path : Option String
deriving DecidableEq, Repr

/-- The SQLite database contents, with one AUTOINCREMENT counter per
table. -/
structure DBState where
  clients : List ClientRow
  tasks : List TaskRow
  categories : List CategoryRow
  task_images : List TaskImageRow
  nextClientId : Nat
  nextTaskId : Nat
  nextCategoryId : Nat
  nextImageId : Nat
deriving DecidableEq, Repr

/-- The connection-level settings chosen by Database.get_connection. -/
structure Conn where
  journalMode : String
  synchronous : String
  busyTimeoutMs : Nat
  foreignKeys : Bool
deriving DecidableEq, Repr

/-- Database.get_connection: WAL journaling, NORMAL synchronous and a
busy timeout are configured. No PRAGMA foreign_keys is ever issued, so
the connection keeps the SQLite default of foreign-key enforcement OFF
and referential actions such as ON DELETE CASCADE do not run. -/
def get_connection (timeoutSec : Nat := 30) : Conn :=
  { journalMode := "wal", synchronous := "NORMAL",
    busyTimeoutMs := timeoutSec * 1000, foreignKeys := false }

/-- The Python exception classes distinguished by the store code. -/
inductive PyExc where
  | operational (msg : String)
  | integrity (msg : String)
  | valueError (msg : String)
deriving DecidableEq, Repr

/-- The retry classifier of _execute_with_retry: an OperationalError
whose lowered message contains "database is locked" or "locked". -/
def isLockedExc : PyExc → Bool
  | .operational msg =>
    let m := pyLowerStr msg
    containsSub m "database is locked" || containsSub m "locked"
  | _ => false

/-- The attempt loop of Database._execute_with_retry. remaining starts
at maxRetries (the range of the Python for loop); the returned Nat is
the number of attempts made. A locked OperationalError below the last
attempt sleeps with exponential backoff and retries; any other error
re-raises at once. The final raise of the source, reachable only when
the loop body never runs, is the remaining = 0 case. -/
def retryGo (op : Nat → Except PyExc α) (maxRetries : Nat) (attempt : Nat) :
    Nat → Except PyExc α × Nat
  | 0 => (.error (.operational "database is locked después de múltiples reintentos"), attempt)
  | r + 1 =>
    match op attempt with
    | .ok v => (.ok v, attempt + 1)
    | .error e =>
      if isLockedExc e && attempt + 1 < maxRetries then
        retryGo op maxRetries (attempt + 1) r
      else (.error e, attempt + 1)

/-- Database._execute_with_retry with the attempt count made
observable. -/
def executeWithRetry (op : Nat → Except PyExc α) (maxRetries : Nat := 5) :
    Except PyExc α × Nat :=
  retryGo op maxRetries 0 maxRetries

/-- The environment of a store call: per attempt, either the message of
an OperationalError raised by the engine for that attempt, or none when
the engine executes the statement normally. -/
def DBEnv : Type := Nat → Option String

/-- One attempt of an operation under an environment. -/
def attemptOp (env : DBEnv) (op : DBState → Except PyExc (α × DBState))
    (st : DBState) (attempt : Nat) : Except PyExc (α × DBState) :=
  match env attempt with
  | some msg => .error (.operational msg)
  | none => op st

/-- A mutator wrapped in _execute_with_retry: up to five attempts; a
failed attempt rolls back, so the state is unchanged on error. -/
def runRetry (env : DBEnv) (op : DBState → Except PyExc (α × DBState))
    (st : DBState) : Except PyExc α × DBState × Nat :=
  match executeWithRetry (attemptOp env op st) 5 with
  | (.ok (a, st2), n) => (.ok a, st2, n)
  | (.error e, n) => (.error e, st, n)

/-- A mutator on a direct connection, without the retry wrapper: a
single attempt whose error propagates; no commit happens on error, so
the state is unchanged. -/
def runOnce (env : DBEnv) (op : DBState → Except PyExc (α × DBState))
    (st : DBState) : Except PyExc α × DBState × Nat :=
  match attemptOp env op st 0 with
  | .ok (a, st2) => (.ok a, st2, 1)
  | .error e => (.error e, st, 1)

/-- Database.create_client. Not wrapped in _execute_with_retry: a direct
connection. The schema's only uniqueness constraint on clients is UNIQUE
on the raw name column; the IntegrityError it raises is caught and
converted to ValueError (the quotes of the source message around the
name are elided). normalized_name carries no uniqueness constraint. -/
def create_client (env : DBEnv) (st : DBState) (name : String)
    (aliases : List String) : Except PyExc Nat × DBState × Nat :=
  runOnce env (fun s =>
    if s.clients.any (fun c => c.name == name) then
      .error (.valueError ("Cliente " ++ name ++ " ya existe"))
    else
      .ok (s.nextClientId,
        { s with
          clients := s.clients ++
            [{ id := s.nextClientId, name := name,
               normalized_name := normalize_text name, aliases := aliases }],
          nextClientId := s.nextClientId + 1 })) st

/-- Database.update_client. Not wrapped in _execute_with_retry. When no
update is requested (Python truthiness: a None or empty name counts as
absent) the source executes nothing. A raw-name UNIQUE collision with
another row raises IntegrityError, uncaught. -/
def update_client (env : DBEnv) (st : DBState) (client_id : Nat)
    (name : Option String) (aliases : Option (List String)) :
    Except PyExc Unit × DBState × Nat :=
  let doName := match name with | some n => n != "" | none => false
  if !(doName || aliases.isSome) then (.ok (), st, 1)
  else
    runOnce env (fun s =>
      if doName && s.clients.any (fun c => c.name == name.getD "" && c.id != client_id) then
        .error (.integrity "UNIQUE constraint failed: clients.name")
      else
        .ok ((),
          { s with
            clients := s.clients.map (fun c =>
              if c.id == client_id then
                let c1 :=
                  if doName then
                    { c with
                      name := name.getD c.name,
                      normalized_name := normalize_text (name.getD c.name) }
                  else c
                match aliases with
                | some al => { c1 with aliases := al }
                | none => c1
              else c) })) st

/-- Database.delete_client. Not wrapped in _execute_with_retry. The
tasks table declares ON DELETE SET NULL for client_id, but the
connection has foreign keys OFF, so the referential action is inert. -/
def delete_client (env : DBEnv) (st : DBState) (client_id : Nat) :
    Except PyExc Unit × DBState × Nat :=
  runOnce env (fun s =>
    let conn := get_connection 30
    let tasks2 :=
      if conn.foreignKeys then
        s.tasks.map (fun t =>
          if t.client_id == some client_id then { t with client_id := none } else t)
      else s.tasks
    .ok ((), { s with
               clients := s.clients.filter (fun c => c.id != client_id),
               tasks := tasks2 })) st

/-- datetime.isoformat, as an injective rendering of the model. -/
def isoformat (d : PyDateTime) : String :=
  toString d.day ++ "T" ++ toString d.hour ++ ":" ++ toString d.minute
    ++ ":" ++ toString d.second ++ "." ++ toString d.microsecond

/-- The CHECK constraints of the tasks table as created by init_db:
status in (open, completed, cancelled) and priority in (normal, urgent).
A violation raises IntegrityError. -/
def checkTaskRow (t : TaskRow) : Except PyExc Unit :=
  if !(["open", "completed", "cancelled"].contains t.status) then
    .error (.integrity "CHECK constraint failed: status")
  else if !(["normal", "urgent"].contains t.priority) then
    .error (.integrity "CHECK constraint failed: priority")
  else .ok ()

/-- Database.create_task, wrapped in _execute_with_retry. The inserted
row takes the schema defaults status = open and the passed priority;
the CHECK constraints apply on insert. An IntegrityError is not an
OperationalError, so the retry wrapper re-raises it at once. -/
def create_task (env : DBEnv) (st : DBState) (user_id : Nat)
    (user_name : Option String) (title : String) (description : Option String)
    (priority : String) (task_date : Option PyDateTime) (client_id : Option Nat)
    (client_name_raw : Option String) (category : Option String) :
    Except PyExc Nat × DBState × Nat :=
  let task_date_str := task_date.map isoformat
  runRetry env (fun s =>
    let row : TaskRow :=
      { id := s.nextTaskId, user_id := user_id, user_name := user_name,
        title := title, description := description, status := "open",
        priority := priority, task_date := task_date_str, client_id := client_id,
        client_name_raw := client_name_raw, google_event_id := none,
        google_event_link := none, solution := none, ampliacion := none,
        category := category }
    match checkTaskRow row with
    | .error e => .error e
    | .ok _ =>
      .ok (s.nextTaskId,
        { s with tasks := s.tasks ++ [row], nextTaskId := s.nextTaskId + 1 })) st

/-- The allowed_fields list of Database.update_task. -/
def allowedFields : List String :=
  ["title", "description", "status", "priority", "task_date", "client_id",
   "client_name_raw", "google_event_id", "google_event_link", "solution",
   "ampliacion", "category"]

/-- Application of one SET column = value item to a row. Values are
modelled as strings: datetime values reach the statement isoformatted
by the source, and the integer client_id column is decoded from its
decimal rendering. -/
def setTaskField (t : TaskRow) (key val : String) : TaskRow :=
  if key == "title" then { t with title := val }
  else if key == "description" then { t with description := some val }
  else if key == "status" then { t with status := val }
  else if key == "priority" then { t with priority := val }
  else if key == "task_date" then { t with task_date := some val }
  else if key == "client_id" then { t with client_id := val.toNat? }
  else if key == "client_name_raw" then { t with client_name_raw := some val }
  else if key == "google_event_id" then { t with google_event_id := some val }
  else if key == "google_event_link" then { t with google_event_link := some val }
  else if key == "solution" then { t with solution := some val }
  else if key == "ampliacion" then { t with ampliacion := some val }
  else if key == "category" then { t with category := some val }
  else t

/-- Database.update_task, wrapped in _execute_with_retry. Unknown kwargs
are dropped by the allowed_fields filter; with no surviving update the
source returns False before opening any connection (zero attempts). The
CHECK constraints apply to the updated row; the result reports whether
a row was matched. -/
def update_task (env : DBEnv) (st : DBState) (task_id : Nat)
    (kwargs : List (String × String)) : Except PyExc Bool × DBState × Nat :=
  let updates := kwargs.filter (fun kv => allowedFields.contains kv.1)
  if updates.isEmpty then (.ok false, st, 0)
  else
    runRetry env (fun s =>
      match s.tasks.find? (fun t => t.id == task_id) with
      | none => .ok (false, s)
      | some t =>
        let t2 := updates.foldl (fun acc kv => setTaskField acc kv.1 kv.2) t
        match checkTaskRow t2 with
        | .error e => .error e
        | .ok _ =>
          .ok (true,
            { s with tasks := s.tasks.map (fun u => if u.id == task_id then t2 else u) })) st

/-- Database.delete_task. Not wrapped in _execute_with_retry: a direct
connection. Before the DELETE it best-effort removes stored image blobs
(SFTP and local); every failure there is caught and logged, so the
environment of blob deletion (sftpEnabled, blobDeleteOk, fileExists)
cannot influence the row deletion. The DELETE on tasks relies on
ON DELETE CASCADE for task_images, which is inert because the
connection has foreign keys OFF. -/
def delete_task (env : DBEnv) (sftpEnabled : Bool) (blobDeleteOk : String → Bool)
    (fileExists : String → Bool) (st : DBState) (task_id : Nat) :
    Except PyExc Bool × DBState × Nat :=
  runOnce env (fun s =>
    let conn := get_connection 30
    let existed := s.tasks.any (fun t => t.id == task_id)
    let images2 :=
      if conn.foreignKeys then s.task_images.filter (fun i => i.task_id != task_id)
      else s.task_images
    .ok (existed,
      { s with
        tasks := s.tasks.filter (fun t => t.id != task_id),
        task_images := images2 })) st

/-- The default_categories literal of Database.init_db, in source
order. -/
def default_categories : List (String × String × String × String) :=
  [("ideas", "💡", "#9b59b6", "Ideas"),
   ("incidencias", "🔧", "#e74c3c", "Incidencias"),
   ("reclamaciones", "⚠️", "#e67e22", "Reclamaciones"),
   ("presupuestos", "💰", "#f39c12", "Presupuestos"),
   ("visitas", "🚪", "#3498db", "Visitas"),
   ("administracion", "📋", "#2ecc71", "Administración"),
   ("en_espera", "⏳", "#95a5a6", "En espera"),
   ("delegado", "👥", "#16a085", "Delegado"),
   ("llamar", "📞", "#e91e63", "Llamar"),
   ("personal", "👤", "#34495e", "Personal")]

/-- The insertion loop for the default categories, consuming fresh
AUTOINCREMENT ids. -/
def insertDefaults (nid : Nat) : List (String × String × String × String) → List CategoryRow
  | [] => []
  | t :: ts =>
    { id := nid, name := t.1, icon := t.2.1, color := t.2.2.1,
      display_name := t.2.2.2 } :: insertDefaults (nid + 1) ts

/-- Database.init_db: creates the tables when absent, runs the column
migrations, DELETEs every categories row and reinserts the ten
defaults, and migrates any high or low task priority to normal. -/
def init_db (st : DBState) : DBState :=
  { st with
    categories := insertDefaults st.nextCategoryId default_categories,
    nextCategoryId := st.nextCategoryId + default_categories.length,
    tasks := st.tasks.map (fun t =>
      if t.priority == "high" || t.priority == "low" then { t with priority := "normal" }
      else t) }

/-- Database.add_category. Not wrapped in _execute_with_retry. The
UNIQUE constraint on the category name raises IntegrityError, uncaught;
an empty color falls back to the default (Python `color or default`),
and display_name defaults to the name. -/
def add_category (env : DBEnv) (st : DBState) (name icon color : String)
    (display_name : Option String) : Except PyExc Nat × DBState × Nat :=
  runOnce env (fun s =>
    if s.categories.any (fun c => c.name == name) then
      .error (.integrity "UNIQUE constraint failed: categories.name")
    else
      .ok (s.nextCategoryId,
        { s with
          categories := s.categories ++
            [{ id := s.nextCategoryId, name := name, icon := icon,
               color := if color == "" then "#3498db" else color,
               display_name := display_name.getD name }],
          nextCategoryId := s.nextCategoryId + 1 })) st

/-- Database.update_category. Not wrapped in _execute_with_retry. With
no update requested the source closes the connection and returns False
without executing anything. -/
def update_category (env : DBEnv) (st : DBState) (category_id : Nat)
    (icon color display_name : Option String) : Except PyExc Bool × DBState × Nat :=
  if icon.isNone && color.isNone && display_name.isNone then (.ok false, st, 1)
  else
    runOnce env (fun s =>
      let existed := s.categories.any (fun c => c.id == category_id)
      .ok (existed,
        { s with
          categories := s.categories.map (fun c =>
            if c.id == category_id then
              { c with
                icon := icon.getD c.icon, color := color.getD c.color,
                display_name := display_name.getD c.display_name }
            else c) })) st

/-- Database.delete_category. Not wrapped in _execute_with_retry. A
category referenced by some task (comparison against the subquery for
its name) is not deleted and the call reports False. -/
def delete_category (env : DBEnv) (st : DBState) (category_id : Nat) :
    Except PyExc Bool × DBState × Nat :=
  runOnce env (fun s =>
    let catName := (s.categories.find? (fun c => c.id == category_id)).map (fun c => c.name)
    let inUse :=
      match catName with
      | some n => s.tasks.any (fun t => t.category == some n)
      | none => false
    if inUse then .ok (false, s)
    else
      let existed := s.categories.any (fun c => c.id == category_id)
      .ok (existed,
        { s with categories := s.categories.filter (fun c => c.id != category_id) })) st

/-- Database.add_image_to_task, wrapped in _execute_with_retry. The
task_id foreign key is unenforced (foreign keys OFF). -/
def add_image_to_task (env : DBEnv) (st : DBState) (task_id : Nat)
    (file_id : String) (file_path : Option String) : Except PyExc Nat × DBState × Nat :=
  runRetry env (fun s =>
    .ok (s.nextImageId,
      { s with
        task_images := s.task_images ++
          [{ id := s.nextImageId, task_id := task_id, file_id := file_id,
             file_path := file_path }],
        nextImageId := s.nextImageId + 1 })) st

/-- Database.delete_task_image, wrapped in _execute_with_retry. -/
def delete_task_image (env : DBEnv) (st : DBState) (image_id : Nat) :
    Except PyExc Bool × DBState × Nat :=
  runRetry env (fun s =>
    let existed := s.task_images.any (fun i => i.id == image_id)
    .ok (existed,
      { s with task_images := s.task_images.filter (fun i => i.id != image_id) })) st

/-- A candidate entry surfaced for user confirmation. -/
structure MatchCandidate where
  id : Nat
  name : String
  confidence : Nat
deriving DecidableEq, Repr

/-- The result dictionary of IntentParser._fuzzy_match_client. Keys the
source omits are modelled as none respectively the empty list. -/
structure MatchResult where
  found : Bool
  client_id : Option Nat
  client_name : Option String
  confidence : Nat
  action : String
  candidates : List MatchCandidate
deriving DecidableEq, Repr

/-- The all_names list of _fuzzy_match_client: per client, in order, the
canonical name (already normalized in the row) then every alias with its
normalization. -/
def allNamesOf : List ClientRow → List (Nat × String × String)
  | [] => []
  | c :: rest =>
    (c.id, c.name, c.normalized_name)
      :: (c.aliases.map (fun a => (c.id, a, normalize_text a)) ++ allNamesOf rest)

/-- The first client whose stored normalized name equals the normalized
input (the exact-match shortcut loop). -/
def findExact (normalizedInput : String) : List ClientRow → Option ClientRow
  | [] => none
  | c :: rest =>
    if c.normalized_name == normalizedInput then some c
    else findExact normalizedInput rest

/-- Descending insertion by score, keeping earlier choices ahead on
ties. -/
def insTop (x : String × Nat) : List (String × Nat) → List (String × Nat)
  | [] => [x]
  | y :: ys => if x.2 ≥ y.2 then x :: y :: ys else y :: insTop x ys

/-- Sort scored choices by score, highest first. -/
def sortByScore : List (String × Nat) → List (String × Nat)
  | [] => []
  | x :: xs => insTop x (sortByScore xs)

/-- rapidfuzz.process.extract: score every choice with the scorer and
return the limit best (choice, score) pairs, best first. The scorer
(fuzz.ratio, an external similarity returning 0 to 100) is a
parameter. -/
def processExtract (ratio : String → String → Nat) (query : String)
    (choices : List String) (limit : Nat) : List (String × Nat) :=
  (sortByScore (choices.map (fun c => (c, ratio query c)))).take limit

/-- The candidate-list construction of the confirm branch: for each kept
match, look up its tuple in all_names, then the owning client, and
record id, display name and score. The inner searches always succeed for
matches drawn from all_names. -/
def buildCandidatesList (allNames : List (Nat × String × String))
    (clients : List ClientRow) (kept : List (String × Nat)) : List MatchCandidate :=
  kept.filterMap (fun m =>
    match allNames.find? (fun t => t.2.2 == m.1) with
    | none => none
    | some t =>
      match clients.find? (fun c => c.id == t.1) with
      | none => none
      | some c => some { id := c.id, name := c.name, confidence := m.2 })

/-- The client_id and client_name recovery for the best match. -/
def lookupMatched (allNames : List (Nat × String × String))
    (clients : List ClientRow) (matchedName : String) : Option Nat × Option String :=
  match allNames.find? (fun t => t.2.2 == matchedName) with
  | none => (none, none)
  | some t => (some t.1, (clients.find? (fun c => c.id == t.1)).map (fun c => c.name))

/-- IntentParser._fuzzy_match_client. The similarity scorer is the
external rapidfuzz ratio, passed in. Modelled from the spec: the config
thresholds CLIENT_MATCH_THRESHOLD_AUTO / _CONFIRM and
CLIENT_MATCH_MAX_CANDIDATES live in config.py, which is not among the
provided source files; the spec constrains them by AUTO ≥ CONFIRM, so
they are parameters here. -/
def fuzzy_match_client (ratio : String → String → Nat)
    (autoThreshold confirmThreshold maxCandidates : Nat)
    (clients : List ClientRow) (name : String) : MatchResult :=
  if clients.isEmpty then
    { found := false, client_id := none, client_name := none, confidence := 0,
      action := "create", candidates := [] }
  else
    let normalizedInput := normalize_text name
    match findExact normalizedInput clients with
    | some c =>
      { found := true, client_id := some c.id, client_name := some c.name,
        confidence := 100, action := "auto", candidates := [] }
    | none =>
      let allNames := allNamesOf clients
      let topMatches :=
        processExtract ratio normalizedInput (allNames.map (fun t => t.2.2)) maxCandidates
      match topMatches with
      | [] =>
        { found := false, client_id := none, client_name := none, confidence := 0,
          action := "create", candidates := [] }
      | best :: _ =>
        if best.2 < confirmThreshold then
          { found := false, client_id := none, client_name := none,
            confidence := best.2, action := "create", candidates := [] }
        else
          let pair := lookupMatched allNames clients best.1
          if best.2 ≥ autoThreshold then
            { found := true, client_id := pair.1, client_name := pair.2,
              confidence := best.2, action := "auto", candidates := [] }
          else
            { found := true, client_id := pair.1, client_name := pair.2,
              confidence := best.2, action := "confirm",
              candidates := buildCandidatesList allNames clients (topMatches.take maxCandidates) }

/-- An environment in which the engine never raises. -/
def noErrEnv : DBEnv := fun _ => none

/-- An environment that raises a locked OperationalError on the first
attempt only. -/
def envLockedOnce : DBEnv := fun i => if i = 0 then some "database is locked" else none

/-- An empty database. -/
def st0 : DBState :=
  { clients := [], tasks := [], categories := [], task_images := [],
    nextClientId := 1, nextTaskId := 1, nextCategoryId := 11, nextImageId := 1 }

/-- A database holding one client named Jose. -/
def stC5 : DBState :=
  { st0 with
    clients := [{ id := 1, name := "Jose", normalized_name := "jose", aliases := [] }],
    nextClientId := 2 }

/-- A sample open task. -/
def taskC6 : TaskRow :=
  { id := 1, user_id := 7, user_name := some "User", title := "Visita obra",
    description := none, status := "open", priority := "normal", task_date := none,
    client_id := none, client_name_raw := none, google_event_id := none,
    google_event_link := none, solution := none, ampliacion := none, category := none }

/-- A database holding that task with one attached image row. -/
def stC6 : DBState :=
  { st0 with
    tasks := [taskC6],
    task_images := [{ id := 1, task_id := 1, file_id := "file123",
                      file_path := some "/images/tasks/1.jpg" }],
    nextTaskId := 2, nextImageId := 2 }

/-- The loop of _detect_intent returns the first fully matching entry,
defaulting to CREAR. -/
theorem detectGo_eq_find (tl : String) :
    ∀ l : List (String × List (List String)),
      detectGo tl l = ((l.find? (fun p => intentMatches tl p.2)).map Prod.fst).getD "CREAR"
  | [] => rfl
  | (i, g) :: rest => by
    cases h : intentMatches tl g with
    | true => simp [detectGo, List.find?, h]
    | false => simp [detectGo, List.find?, h, detectGo_eq_find tl rest]

/-- C7: for every input text, intent classification returns the first
intent in declared order (CREAR = CREATE, LISTAR = LIST, CERRAR = CLOSE,
REPROGRAMAR = RESCHEDULE, CAMBIAR_PRIORIDAD = CHANGE_PRIORITY) all of
whose pattern groups match the lowered text; when no intent fully
matches, the result is CREAR. -/
theorem c7_intent_first_match (text : String) :
    detect_intent text
      = ((INTENT_PATTERNS.find? (fun p => intentMatches (pyLowerStr text) p.2)).map
          Prod.fst).getD "CREAR" := by
  simpa [detect_intent] using detectGo_eq_find (pyLowerStr text) INTENT_PATTERNS

/-- A fixed clock: day 100 of the model epoch at 15:30. -/
def nowC1 : PyDateTime := { day := 100, hour := 15, minute := 30, second := 0, microsecond := 0 }

/-- C1 counterexample: on the text "mañana" (which carries no explicit
time token), _extract_date returns the next day at 00:00, not at 09:00
as the claim states: the DATE_PATTERNS branch zeroes the time and the
09:00 default lives only in the dateparser fallback branch. -/
theorem c1_counterexample :
    extract_date (fun _ => none) nowC1 "mañana"
      = some { day := 101, hour := 0, minute := 0, second := 0, microsecond := 0 } ∧
    some ({ day := 101, hour := 0, minute := 0, second := 0, microsecond := 0 } : PyDateTime)
      ≠ some ({ day := 101, hour := 9, minute := 0, second := 0, microsecond := 0 } : PyDateTime) := by
  exact ⟨rfl, by decide⟩

/-- C1 amended: for every text containing "mañana" and not containing
"hoy" (the only earlier DATE_PATTERNS key), _extract_date returns the
date exactly one calendar day ahead with the time set to 00:00
(midnight), for every fallback parser and every clock. -/
theorem c1_manana_midnight (dp : String → Option PyDateTime) (now : PyDateTime)
    (text : String)
    (hman : containsSub (pyLowerStr text) "mañana" = true)
    (hhoy : containsSub (pyLowerStr text) "hoy" = false) :
    extract_date dp now text = some (atMidnight (addDays now 1)) := by
  simp [extract_date, findDatePattern, DATE_PATTERNS, hman, hhoy]

/-- C1 witness: the amended statement at the concrete text "Mañana por
la tarde" and the fixed clock. -/
theorem c1_manana_midnight_witness :
    extract_date (fun _ => none) nowC1 "Mañana por la tarde"
      = some (atMidnight (addDays nowC1 1)) :=
  c1_manana_midnight (fun _ => none) nowC1 "Mañana por la tarde" (by decide) (by decide)

/-- C2 counterexample: under a backend that raises a locked
OperationalError on the first attempt and then works, create_client
(claimed to be wrapped in the retry loop) fails at once after a single
attempt, while create_task under the same backend succeeds on the
second attempt. -/
theorem c2_counterexample :
    create_client envLockedOnce st0 "Acme" []
      = (.error (.operational "database is locked"), st0, 1) ∧
    (create_task envLockedOnce st0 1 (some "User") "Llamar a Acme" none "normal"
        none none none none).1 = .ok 1 ∧
    (create_task envLockedOnce st0 1 (some "User") "Llamar a Acme" none "normal"
        none none none none).2.2 = 2 := by
  exact ⟨rfl, rfl, rfl⟩

/-- C5 counterexample: with the client Jose registered (normalized name
jose), create_client for the raw name "Jose " (trailing blank), whose
normalized form is also jose, does not fail: the only uniqueness
constraint is on the raw name, so a second row with the same
normalized_name is inserted. -/
theorem c5_counterexample :
    normalize_text "Jose " = "jose" ∧
    (create_client noErrEnv stC5 "Jose " []).1 = .ok 2 ∧
    ((create_client noErrEnv stC5 "Jose " []).2.1.clients.map
      (fun c => c.normalized_name)) = ["jose", "jose"] := by
  exact ⟨by decide, rfl, by decide⟩

/-- C5 amended: create_client fails with the duplicate-client ValueError
exactly when the raw name equals the raw name of an existing client;
otherwise the row is inserted, even when its normalized form collides
with an existing normalized_name. -/
theorem c5_duplicate_raw_name_only (st : DBState) (name : String) (aliases : List String) :
    (st.clients.any (fun c => c.name == name) = true →
      create_client noErrEnv st name aliases
        = (.error (.valueError ("Cliente " ++ name ++ " ya existe")), st, 1)) ∧
    (st.clients.any (fun c => c.name == name) = false →
      create_client noErrEnv st name aliases
        = (.ok st.nextClientId,
           { st with
             clients := st.clients ++
               [{ id := st.nextClientId, name := name,
                  normalized_name := normalize_text name, aliases := aliases }],
             nextClientId := st.nextClientId + 1 }, 1)) := by
  constructor
  · intro h
    simp [create_client, runOnce, attemptOp, noErrEnv, h]
  · intro h
    simp [create_client, runOnce, attemptOp, noErrEnv, h]

/-- C5 witness: the amended statement at the Jose database, on the
duplicate raw name "Jose" and on the fresh raw name "Obra Nueva". -/
theorem c5_duplicate_raw_name_only_witness :
    create_client noErrEnv stC5 "Jose" []
      = (.error (.valueError ("Cliente " ++ "Jose" ++ " ya existe")), stC5, 1) ∧
    create_client noErrEnv stC5 "Obra Nueva" []
      = (.ok stC5.nextClientId,
         { stC5 with
           clients := stC5.clients ++
             [{ id := stC5.nextClientId, name := "Obra Nueva",
                normalized_name := normalize_text "Obra Nueva", aliases := [] }],
           nextClientId := stC5.nextClientId + 1 }, 1) :=
  ⟨(c5_duplicate_raw_name_only stC5 "Jose" []).1 (by decide),
   (c5_duplicate_raw_name_only stC5 "Obra Nueva" []).2 (by decide)⟩

/-- C6: for the task with one attached image row and a blob-deletion
environment in which every external deletion fails, delete_task still
removes the task row, but the task_images row survives: the connection
never enables foreign keys, so the schema's ON DELETE CASCADE is inert,
contrary to the claim (and to the source's own comment that the image
rows are removed automatically by CASCADE). -/
theorem c6_delete_task_leaves_image_rows :
    delete_task noErrEnv true (fun _ => false) (fun _ => false) stC6 1
      = (.ok true, { stC6 with tasks := [] }, 1) ∧
    ({ stC6 with tasks := [] } : DBState).task_images
      = [{ id := 1, task_id := 1, file_id := "file123",
           file_path := some "/images/tasks/1.jpg" }] := by
  exact ⟨rfl, rfl⟩

/-- C9: any text containing "importante" and none of the earlier
PRIORITY_MAP keys is mapped to the priority high, which the tasks CHECK
constraint rejects, so create_task raises IntegrityError on the first
attempt and inserts nothing. -/
theorem c9_priority_not_persistable (text : String) (st : DBState) (uid : Nat)
    (uname : Option String) (title : String)
    (himp : containsSub (pyLowerStr text) "importante" = true)
    (h1 : containsSub (pyLowerStr text) "urgente" = false)
    (h2 : containsSub (pyLowerStr text) "urgent" = false)
    (h3 : containsSub (pyLowerStr text) "alta" = false)
    (h4 : containsSub (pyLowerStr text) "high" = false) :
    extract_priority text = "high" ∧
    (["normal", "urgent"].contains (extract_priority text)) = false ∧
    create_task noErrEnv st uid uname title none (extract_priority text) none none none none
      = (.error (.integrity "CHECK constraint failed: priority"), st, 1) := by
  have hp : extract_priority text = "high" := by
    simp [extract_priority, priorityGo, PRIORITY_MAP, himp, h1, h2, h3, h4]
  refine ⟨hp, by rw [hp]; decide, ?_⟩
  rw [hp]
  have e1 : (["open", "completed", "cancelled"].contains "open") = true := by decide
  have e2 : (["normal", "urgent"].contains "high") = false := by decide
  simp [create_task, runRetry, executeWithRetry, retryGo, attemptOp, noErrEnv,
    checkTaskRow, isLockedExc, e1, e2]

/-- C9 witness: the statement at the concrete text "es importante
revisar la caldera" over the empty database. -/
theorem c9_priority_not_persistable_witness :
    extract_priority "es importante revisar la caldera" = "high" ∧
    (["normal", "urgent"].contains (extract_priority "es importante revisar la caldera")) = false ∧
    create_task noErrEnv st0 1 (some "User") "revisar la caldera" none
        (extract_priority "es importante revisar la caldera") none none none none
      = (.error (.integrity "CHECK constraint failed: priority"), st0, 1) :=
  c9_priority_not_persistable "es importante revisar la caldera" st0 1 (some "User")
    "revisar la caldera" (by decide) (by decide) (by decide) (by decide) (by decide)

/-- C10: init_db leaves the categories table holding exactly the ten
built-in defaults, in order, so every previously added category whose
name is not among the defaults is gone after a restart. -/
theorem c10_categories_reset (st : DBState) :
    ((init_db st).categories.map (fun c => c.name))
      = ["ideas", "incidencias", "reclamaciones", "presupuestos", "visitas",
         "administracion", "en_espera", "delegado", "llamar", "personal"] ∧
    ((init_db st).categories.all (fun c =>
        ["ideas", "incidencias", "reclamaciones", "presupuestos", "visitas",
         "administracion", "en_espera", "delegado", "llamar", "personal"].contains c.name))
      = true := by
  exact ⟨rfl, rfl⟩


/-- A direct-connection mutator propagates an engine error of its single
attempt unchanged, with the state untouched. -/
theorem runOnce_env_err {α : Type} (env : DBEnv) (op : DBState → Except PyExc (α × DBState))
    (st : DBState) (msg : String) (h0 : env 0 = some msg) :
    runOnce env op st = (.error (.operational msg), st, 1) := by
  simp [runOnce, attemptOp, h0]

/-- A retry-wrapped mutator under an engine that is locked on the first
attempt only returns the success of the second attempt. -/
theorem runRetry_locked_once_ok {α : Type} (env : DBEnv)
    (op : DBState → Except PyExc (α × DBState)) (st : DBState) (msg : String)
    (a : α) (st2 : DBState)
    (h0 : env 0 = some msg) (hm : isLockedExc (.operational msg) = true)
    (h1 : env 1 = none) (hop : op st = .ok (a, st2)) :
    runRetry env op st = (.ok a, st2, 2) := by
  simp [runRetry, executeWithRetry, retryGo, attemptOp, h0, h1, hm, hop]


/-- The retry loop skips k locked attempts and returns the success of
attempt k, counting k+1 attempts in total. -/
theorem retryGo_ok_after_locked {α : Type} (op : Nat → Except PyExc α) (m : Nat) :
    ∀ (k a r : Nat) (v : α), r = m - a → a + k + 1 ≤ m →
      (∀ i, i < k → ∃ e, op (a + i) = .error e ∧ isLockedExc e = true) →
      op (a + k) = .ok v →
      retryGo op m a r = (.ok v, a + k + 1) := by
  intro k
  induction k with
  | zero =>
    intro a r v hr hm _ hok
    obtain ⟨s, rfl⟩ : ∃ s, r = s + 1 := ⟨r - 1, by omega⟩
    have hok2 : op a = .ok v := by simpa using hok
    simp [retryGo, hok2]
  | succ k ih =>
    intro a r v hr hm hlock hok
    obtain ⟨s, rfl⟩ : ∃ s, r = s + 1 := ⟨r - 1, by omega⟩
    obtain ⟨e, he, hle⟩ := hlock 0 (by omega)
    have hlt : a + 1 < m := by omega
    have he2 : op a = .error e := by simpa using he
    have step := ih (a + 1) s v (by omega) (by omega)
      (fun i hi => by
        obtain ⟨e2, h2, h3⟩ := hlock (i + 1) (by omega)
        exact ⟨e2, by simpa [Nat.add_assoc, Nat.add_comm 1 i] using h2, h3⟩)
      (by
        have := hok
        simpa [Nat.add_assoc, Nat.add_comm 1 k] using this)
    have : retryGo op m a (s + 1) = retryGo op m (a + 1) s := by
      simp [retryGo, he2, hle, hlt]
    rw [this, step]
    have harith : a + 1 + k + 1 = a + (k + 1) + 1 := by omega
    rw [harith]


/-- With every attempt locked, the retry loop re-raises the locked error
of the last attempt after exactly maxRetries attempts. -/
theorem retryGo_locked_exhaust {α : Type} (op : Nat → Except PyExc α) (m : Nat) :
    ∀ (r a : Nat), r = m - a → a < m →
      (∀ i, a ≤ i → i < m → ∃ e, op i = .error e ∧ isLockedExc e = true) →
      ∃ e, retryGo op m a r = (.error e, m) ∧ isLockedExc e = true ∧ op (m - 1) = .error e := by
  intro r
  induction r with
  | zero => intro a hr ha _; omega
  | succ s ih =>
    intro a hr ha hlock
    obtain ⟨e, he, hle⟩ := hlock a (Nat.le_refl a) ha
    by_cases hlt : a + 1 < m
    · have hstep : retryGo op m a (s + 1) = retryGo op m (a + 1) s := by
        simp [retryGo, he, hle, hlt]
      obtain ⟨e2, h1, h2, h3⟩ := ih (a + 1) (by omega) hlt
        (fun i hi1 hi2 => hlock i (by omega) hi2)
      exact ⟨e2, by rw [hstep, h1], h2, h3⟩
    · have ham : a = m - 1 := by omega
      have hstop : retryGo op m a (s + 1) = (.error e, a + 1) := by
        simp [retryGo, he, hle, hlt]
      refine ⟨e, ?_, hle, by rw [← ham]; exact he⟩
      rw [hstop]
      have : a + 1 = m := by omega
      rw [this]

/-- An error outside the locked class propagates from the first
attempt. -/
theorem retryGo_first_nonlocked {α : Type} (op : Nat → Except PyExc α) (m r : Nat)
    (e : PyExc) (hr : 0 < r) (he : op 0 = .error e) (hnl : isLockedExc e = false) :
    retryGo op m 0 r = (.error e, 1) := by
  obtain ⟨s, rfl⟩ : ∃ s, r = s + 1 := ⟨r - 1, by omega⟩
  simp [retryGo, he, hnl]

/-- C3: through _execute_with_retry (max attempts 5), an operation that
raises a locked OperationalError exactly k < 5 times and then succeeds
returns the success result after exactly k+1 attempts; one that raises
locked on every attempt fails with a distinguishable locked error (the
re-raised locked OperationalError of attempt 5) after exactly 5
attempts; an error outside the locked class propagates after the first
attempt with no retry. -/
theorem c3_execute_with_retry_spec {α : Type} :
    (∀ (op : Nat → Except PyExc α) (k : Nat) (v : α),
      k < 5 →
      (∀ i, i < k → ∃ e, op i = .error e ∧ isLockedExc e = true) →
      op k = .ok v →
      executeWithRetry op 5 = (.ok v, k + 1)) ∧
    (∀ (op : Nat → Except PyExc α),
      (∀ i, i < 5 → ∃ e, op i = .error e ∧ isLockedExc e = true) →
      ∃ e, executeWithRetry op 5 = (.error e, 5) ∧ isLockedExc e = true ∧ op 4 = .error e) ∧
    (∀ (op : Nat → Except PyExc α) (e : PyExc),
      op 0 = .error e → isLockedExc e = false →
      executeWithRetry op 5 = (.error e, 1)) := by
  refine ⟨?_, ?_, ?_⟩
  · intro op k v hk hlock hok
    have h := retryGo_ok_after_locked op 5 k 0 5 v (by omega) (by omega)
      (fun i hi => by simpa using hlock i hi) (by simpa using hok)
    simpa [executeWithRetry] using h
  · intro op hlock
    obtain ⟨e, h1, h2, h3⟩ := retryGo_locked_exhaust op 5 5 0 (by omega) (by omega)
      (fun i _ hi => hlock i hi)
    exact ⟨e, by simpa [executeWithRetry] using h1, h2, by simpa using h3⟩
  · intro op e he hnl
    simpa [executeWithRetry] using retryGo_first_nonlocked op 5 5 e (by omega) he hnl

/-- C3 witness: the three parts at concrete operations: locked twice
then 42; always locked; an immediate IntegrityError. -/
theorem c3_execute_with_retry_spec_witness :
    executeWithRetry
        (fun i => if i < 2 then .error (.operational "database is locked") else .ok (42 : Nat)) 5
      = (.ok 42, 3) ∧
    (∃ e, executeWithRetry
        (fun _ => (.error (.operational "database is locked") : Except PyExc Nat)) 5
      = (.error e, 5) ∧ isLockedExc e = true ∧
        (fun _ => (.error (.operational "database is locked") : Except PyExc Nat)) 4 = .error e) ∧
    executeWithRetry
        (fun _ => (.error (.integrity "UNIQUE constraint failed") : Except PyExc Nat)) 5
      = (.error (.integrity "UNIQUE constraint failed"), 1) := by
  refine ⟨?_, ?_, ?_⟩
  · exact c3_execute_with_retry_spec.1 _ 2 42 (by omega)
      (fun i hi => ⟨.operational "database is locked", by simp [hi], by decide⟩)
      (by norm_num)
  · exact c3_execute_with_retry_spec.2.1 _
      (fun i _ => ⟨.operational "database is locked", rfl, by decide⟩)
  · exact c3_execute_with_retry_spec.2.2 _ _ rfl (by decide)



/-- Projection form of the locked-once retry lemma for operations known
to succeed on a clean attempt. -/
theorem runRetry_locked_once_exists {α : Type} (env : DBEnv)
    (op : DBState → Except PyExc (α × DBState)) (st : DBState) (msg : String)
    (h0 : env 0 = some msg) (hm : isLockedExc (.operational msg) = true)
    (h1 : env 1 = none) (hok : ∃ p : α × DBState, op st = .ok p) :
    (runRetry env op st).2.2 = 2 ∧ ∃ a, (runRetry env op st).1 = .ok a := by
  obtain ⟨⟨a, st2⟩, hop⟩ := hok
  rw [runRetry_locked_once_ok env op st msg a st2 h0 hm h1 hop]
  exact ⟨rfl, a, rfl⟩

/-- C2 amended: under a backend that is locked on the first attempt and
clean afterwards, the four mutators that the source routes through
_execute_with_retry (create_task, update_task, add_image_to_task,
delete_task_image) succeed after exactly two attempts, while
create_client, update_client, delete_client, delete_task, add_category,
update_category and delete_category propagate the locked error
immediately after a single attempt. -/
theorem c2_retry_coverage (env : DBEnv) (msg : String) (st : DBState)
    (hmsg : isLockedExc (.operational msg) = true)
    (h0 : env 0 = some msg) (h1 : env 1 = none)
    (hst : ∀ t ∈ st.tasks,
      (["open", "completed", "cancelled"].contains t.status) = true ∧
      (["normal", "urgent"].contains t.priority) = true)
    (uid : Nat) (uname : Option String) (title : String) (tid cid iid : Nat)
    (cname : String) (als : List String) :
    ((create_task env st uid uname title none "normal" none none none none).2.2 = 2 ∧
      ∃ a, (create_task env st uid uname title none "normal" none none none none).1 = .ok a) ∧
    ((update_task env st tid [("status", "completed")]).2.2 = 2 ∧
      ∃ b, (update_task env st tid [("status", "completed")]).1 = .ok b) ∧
    ((add_image_to_task env st tid "file" none).2.2 = 2 ∧
      ∃ a, (add_image_to_task env st tid "file" none).1 = .ok a) ∧
    ((delete_task_image env st iid).2.2 = 2 ∧
      ∃ b, (delete_task_image env st iid).1 = .ok b) ∧
    create_client env st cname als = (.error (.operational msg), st, 1) ∧
    update_client env st cid (some "Nuevo Nombre") none = (.error (.operational msg), st, 1) ∧
    delete_client env st cid = (.error (.operational msg), st, 1) ∧
    delete_task env true (fun _ => true) (fun _ => true) st tid
      = (.error (.operational msg), st, 1) ∧
    add_category env st "extra" "x" "#ffffff" none = (.error (.operational msg), st, 1) ∧
    update_category env st cid (some "y") none none = (.error (.operational msg), st, 1) ∧
    delete_category env st cid = (.error (.operational msg), st, 1) := by
  have hco : (["open", "completed", "cancelled"].contains "open") = true := by decide
  have hcc : (["open", "completed", "cancelled"].contains "completed") = true := by decide
  have hcn : (["normal", "urgent"].contains "normal") = true := by decide
  refine ⟨?_, ?_, ?_, ?_, ?_, ?_, ?_, ?_, ?_, ?_, ?_⟩
  · unfold create_task
    exact runRetry_locked_once_exists env _ st msg h0 hmsg h1 ⟨_, rfl⟩
  · unfold update_task
    simp only [List.filter, allowedFields, List.contains, List.elem]
    refine runRetry_locked_once_exists env _ st msg h0 hmsg h1 ?_
    cases hfind : st.tasks.find? (fun t => t.id == tid) with
    | none => exact ⟨(false, st), by simp [hfind]⟩
    | some t =>
      have ht := List.mem_of_find?_eq_some hfind
      have ht2 : setTaskField t "status" "completed" = { t with status := "completed" } := rfl
      have hpri : t.priority = "normal" ∨ t.priority = "urgent" := by
        simpa using (hst t ht).2
      have hcond : ¬(¬t.priority = "normal" ∧ ¬t.priority = "urgent") := by
        rcases hpri with h | h <;> simp [h]
      exact ⟨_, by simp [hfind, ht2, checkTaskRow, hcc, hcond]; rfl⟩
  · unfold add_image_to_task
    exact runRetry_locked_once_exists env _ st msg h0 hmsg h1 ⟨_, rfl⟩
  · unfold delete_task_image
    exact runRetry_locked_once_exists env _ st msg h0 hmsg h1 ⟨_, rfl⟩
  · exact runOnce_env_err env _ st msg h0
  · exact runOnce_env_err env _ st msg h0
  · exact runOnce_env_err env _ st msg h0
  · exact runOnce_env_err env _ st msg h0
  · exact runOnce_env_err env _ st msg h0
  · exact runOnce_env_err env _ st msg h0
  · exact runOnce_env_err env _ st msg h0


/-- C2 witness: the amended statement at the locked-once environment
over the empty database. -/
theorem c2_retry_coverage_witness :
    create_client envLockedOnce st0 "Acme SA" []
      = (.error (.operational "database is locked"), st0, 1) ∧
    (create_task envLockedOnce st0 1 (some "User") "tarea" none "normal"
        none none none none).2.2 = 2 ∧
    delete_task envLockedOnce true (fun _ => true) (fun _ => true) st0 1
      = (.error (.operational "database is locked"), st0, 1) := by
  have h := c2_retry_coverage envLockedOnce "database is locked" st0 (by decide) rfl rfl
    (by simp [st0]) 1 (some "User") "tarea" 1 1 1 "Acme SA" []
  exact ⟨h.2.2.2.2.1, h.1.1, h.2.2.2.2.2.2.2.1⟩


theorem strTake_eq_self {s : String} {n : Nat} (h : s.length ≤ n) : strTake s n = s := by
  unfold strTake
  rw [List.take_of_length_le h]

theorem extract_title_length_le (mo : String → List String) (text intent : String) :
    (extract_title mo text intent).length ≤ 200 := by
  unfold extract_title strTake
  show (List.take 200 _).length ≤ 200
  simp [List.length_take]

/-- Separator-inclusive cost of a word list: one space plus the word
length for every word. -/
def sepCost : List String → Nat
  | [] => 0
  | w :: ws => 1 + w.length + sepCost ws

/-- Length of the single-space join of a word list. -/
def joinLen : List String → Nat
  | [] => 0
  | w :: ws => w.length + sepCost ws

theorem strMkRev_length (l : List Char) : (String.mk l.reverse).length = l.length := by
  show l.reverse.length = l.length
  exact List.length_reverse l

theorem intercalate_go_length : ∀ (as : List String) (acc : String),
    (String.intercalate.go acc " " as).length = acc.length + sepCost as
  | [], acc => by
    show acc.length = acc.length + sepCost []
    simp [sepCost]
  | a :: as, acc => by
    show (String.intercalate.go (acc ++ " " ++ a) " " as).length = acc.length + sepCost (a :: as)
    rw [intercalate_go_length as]
    have h1 : (acc ++ " " ++ a).length = acc.length + 1 + a.length := by
      rw [String.length_append, String.length_append]
      rfl
    rw [h1]
    simp [sepCost]
    omega

theorem intercalate_space_length (ws : List String) :
    (String.intercalate " " ws).length = joinLen ws := by
  cases ws with
  | nil => rfl
  | cons w ws =>
    show (String.intercalate.go w " " ws).length = joinLen (w :: ws)
    rw [intercalate_go_length]
    rfl

theorem sepCost_wordsGo : ∀ (s cur : List Char),
    sepCost (wordsGo cur s) ≤ (if cur.isEmpty then 1 else 1 + cur.length) + s.length
  | [], [] => by simp [wordsGo, sepCost]
  | [], c :: cs => by
    have e : wordsGo (c :: cs) [] = [String.mk (c :: cs).reverse] := by simp [wordsGo]
    rw [e]
    have e2 : sepCost [String.mk (c :: cs).reverse] = 1 + (c :: cs).length := by
      simp [sepCost, strMkRev_length]
    rw [e2]
    simp
  | c :: rest, [] => by
    by_cases hsp : isSpaceCh c
    · have e : wordsGo [] (c :: rest) = wordsGo [] rest := by simp [wordsGo, hsp]
      rw [e]
      have h := sepCost_wordsGo rest []
      simp only [List.isEmpty_nil, if_true] at h ⊢
      simp only [List.length_cons]
      omega
    · have e : wordsGo [] (c :: rest) = wordsGo [c] rest := by simp [wordsGo, hsp]
      rw [e]
      have h := sepCost_wordsGo rest [c]
      simp only [List.isEmpty_cons, List.isEmpty_nil, if_true, if_false,
        List.length_cons, List.length_nil, Bool.false_eq_true] at h ⊢
      omega
  | c :: rest, d :: ds => by
    by_cases hsp : isSpaceCh c
    · have e : wordsGo (d :: ds) (c :: rest)
          = String.mk ((d :: ds).reverse) :: wordsGo [] rest := by
        simp [wordsGo, hsp]
      rw [e]
      have h := sepCost_wordsGo rest []
      have e2 : sepCost (String.mk ((d :: ds).reverse) :: wordsGo [] rest)
          = 1 + (d :: ds).length + sepCost (wordsGo [] rest) := by
        simp [sepCost, strMkRev_length]
      rw [e2]
      simp only [List.isEmpty_nil, List.isEmpty_cons, if_true, if_false,
        List.length_cons, Bool.false_eq_true] at h ⊢
      omega
    · have e : wordsGo (d :: ds) (c :: rest) = wordsGo (c :: d :: ds) rest := by
        simp [wordsGo, hsp]
      rw [e]
      have h := sepCost_wordsGo rest (c :: d :: ds)
      simp only [List.isEmpty_cons, if_false, List.length_cons, Bool.false_eq_true] at h ⊢
      omega

theorem joinLen_wordsGo : ∀ (s cur : List Char),
    joinLen (wordsGo cur s) ≤ cur.length + s.length
  | [], [] => by simp [wordsGo, joinLen]
  | [], c :: cs => by
    have e : wordsGo (c :: cs) [] = [String.mk (c :: cs).reverse] := by simp [wordsGo]
    rw [e]
    have e2 : joinLen [String.mk (c :: cs).reverse] = (c :: cs).length := by
      simp [joinLen, sepCost, strMkRev_length]
    rw [e2]
    simp
  | c :: rest, [] => by
    by_cases hsp : isSpaceCh c
    · have e : wordsGo [] (c :: rest) = wordsGo [] rest := by simp [wordsGo, hsp]
      rw [e]
      have h := joinLen_wordsGo rest []
      simp only [List.length_nil, List.length_cons] at h ⊢
      omega
    · have e : wordsGo [] (c :: rest) = wordsGo [c] rest := by simp [wordsGo, hsp]
      rw [e]
      have h := joinLen_wordsGo rest [c]
      simp only [List.length_nil, List.length_cons] at h ⊢
      omega
  | c :: rest, d :: ds => by
    by_cases hsp : isSpaceCh c
    · have e : wordsGo (d :: ds) (c :: rest)
          = String.mk ((d :: ds).reverse) :: wordsGo [] rest := by
        simp [wordsGo, hsp]
      rw [e]
      have h := sepCost_wordsGo rest []
      have e2 : joinLen (String.mk ((d :: ds).reverse) :: wordsGo [] rest)
          = (d :: ds).length + sepCost (wordsGo [] rest) := by
        simp [joinLen, strMkRev_length]
      rw [e2]
      simp only [List.isEmpty_nil, if_true, List.length_cons] at h ⊢
      omega
    · have e : wordsGo (d :: ds) (c :: rest) = wordsGo (c :: d :: ds) rest := by
        simp [wordsGo, hsp]
      rw [e]
      have h := joinLen_wordsGo rest (c :: d :: ds)
      simp only [List.length_cons] at h ⊢
      omega

/-- The whitespace collapse never lengthens a string. -/
theorem collapseWsStrip_length_le (s : String) :
    (collapseWsStrip s).length ≤ s.length := by
  rw [collapseWsStrip, intercalate_space_length]
  have h := joinLen_wordsGo s.data []
  simpa [wsWords] using h

theorem length_reSubAltsGo (alts : List String) :
    ∀ (fuel : Nat) (s : List Char), (reSubAltsGo alts fuel s).length ≤ s.length := by
  intro fuel
  induction fuel with
  | zero => intro s; simp [reSubAltsGo]
  | succ f ih =>
    intro s
    cases s with
    | nil => simp [reSubAltsGo]
    | cons c rest =>
      cases h : firstAltAt alts (c :: rest) with
      | some p =>
        have e : reSubAltsGo alts (f + 1) (c :: rest)
            = reSubAltsGo alts f ((c :: rest).drop p.length) := by
          simp [reSubAltsGo, h]
        rw [e]
        calc (reSubAltsGo alts f ((c :: rest).drop p.length)).length
            ≤ ((c :: rest).drop p.length).length := ih _
          _ ≤ (c :: rest).length := by simp [List.length_drop]
      | none =>
        have e : reSubAltsGo alts (f + 1) (c :: rest)
            = c :: reSubAltsGo alts f rest := by
          simp [reSubAltsGo, h]
        rw [e]
        have := ih rest
        simp only [List.length_cons]
        omega

theorem length_reSubBoundedGo (kw : List Char) :
    ∀ (fuel : Nat) (prev : Option Char) (s : List Char),
      (reSubBoundedGo kw fuel prev s).length ≤ s.length := by
  intro fuel
  induction fuel with
  | zero => intro prev s; simp [reSubBoundedGo]
  | succ f ih =>
    intro prev s
    cases s with
    | nil => simp [reSubBoundedGo]
    | cons c rest =>
      by_cases h : bMatchAt kw prev (c :: rest)
      · have e : reSubBoundedGo kw (f + 1) prev (c :: rest)
            = reSubBoundedGo kw f (((c :: rest).take kw.length).getLast?)
                ((c :: rest).drop kw.length) := by
          simp [reSubBoundedGo, h]
        rw [e]
        calc (reSubBoundedGo kw f _ ((c :: rest).drop kw.length)).length
            ≤ ((c :: rest).drop kw.length).length := ih _ _
          _ ≤ (c :: rest).length := by simp [List.length_drop]
      · have e : reSubBoundedGo kw (f + 1) prev (c :: rest)
            = c :: reSubBoundedGo kw f (some c) rest := by
          simp [reSubBoundedGo, h]
        rw [e]
        have := ih (some c) rest
        simp only [List.length_cons]
        omega

theorem length_reSubMentionGo (mention : List Char) :
    ∀ (fuel : Nat) (prev : Option Char) (s : List Char),
      (reSubMentionGo mention fuel prev s).length ≤ s.length := by
  intro fuel
  induction fuel with
  | zero => intro prev s; simp [reSubMentionGo]
  | succ f ih =>
    intro prev s
    cases s with
    | nil => simp [reSubMentionGo]
    | cons c rest =>
      cases h : mentionPhraseAt mention prev (c :: rest) with
      | some n =>
        have e : reSubMentionGo mention (f + 1) prev (c :: rest)
            = reSubMentionGo mention f (((c :: rest).take n).getLast?)
                ((c :: rest).drop n) := by
          simp [reSubMentionGo, h]
        rw [e]
        calc (reSubMentionGo mention f _ ((c :: rest).drop n)).length
            ≤ ((c :: rest).drop n).length := ih _ _
          _ ≤ (c :: rest).length := by simp [List.length_drop]
      | none =>
        have e : reSubMentionGo mention (f + 1) prev (c :: rest)
            = c :: reSubMentionGo mention f (some c) rest := by
          simp [reSubMentionGo, h]
        rw [e]
        have := ih (some c) rest
        simp only [List.length_cons]
        omega

theorem length_reSubAlts (alts : List String) (s : String) :
    (reSubAlts alts s).length ≤ s.length :=
  length_reSubAltsGo alts s.data.length s.data

theorem length_reSubBounded (kw : String) (s : String) :
    (reSubBounded kw s).length ≤ s.length :=
  length_reSubBoundedGo kw.data s.data.length none s.data

theorem length_reSubMention (mention : String) (s : String) :
    (reSubMention mention s).length ≤ s.length :=
  length_reSubMentionGo mention.data s.data.length none s.data

theorem length_foldl_reSubAlts :
    ∀ (gs : List (List String)) (s : String),
      (gs.foldl (fun a grp => reSubAlts grp a) s).length ≤ s.length
  | [], s => Nat.le_refl _
  | g :: gs, s =>
    Nat.le_trans (length_foldl_reSubAlts gs (reSubAlts g s)) (length_reSubAlts g s)

theorem length_stripIntentPatterns_go :
    ∀ (ps : List (String × List (List String))) (s : String),
      (ps.foldl (fun acc p => p.2.foldl (fun a grp => reSubAlts grp a) acc) s).length
        ≤ s.length
  | [], s => Nat.le_refl _
  | p :: ps, s =>
    Nat.le_trans (length_stripIntentPatterns_go ps _) (length_foldl_reSubAlts p.2 s)

theorem length_stripIntentPatterns (s : String) :
    (stripIntentPatterns s).length ≤ s.length :=
  length_stripIntentPatterns_go INTENT_PATTERNS s

theorem length_stripMentionPhrases :
    ∀ (ms : List String) (s : String), (stripMentionPhrases ms s).length ≤ s.length
  | [], s => Nat.le_refl _
  | m :: ms, s =>
    Nat.le_trans (length_stripMentionPhrases ms (reSubMention m s))
      (length_reSubMention m s)

theorem length_stripPriorityKeywords_go :
    ∀ (ps : List (String × String)) (s : String),
      (ps.foldl (fun acc kv => reSubBounded kv.1 acc) s).length ≤ s.length
  | [], s => Nat.le_refl _
  | p :: ps, s =>
    Nat.le_trans (length_stripPriorityKeywords_go ps _) (length_reSubBounded p.1 s)

theorem length_stripPriorityKeywords (s : String) :
    (stripPriorityKeywords s).length ≤ s.length :=
  length_stripPriorityKeywords_go PRIORITY_MAP s

/-- The whole stripping pipeline of _extract_title never lengthens its
input: every phase only deletes characters or collapses whitespace. -/
theorem cleanTitle_length_le (mo : String → List String) (text : String) :
    (cleanTitle mo text).length ≤ text.length := by
  have h1 := length_stripIntentPatterns text
  have h2 := length_stripMentionPhrases (mo (stripIntentPatterns text))
    (stripIntentPatterns text)
  have h3 := length_stripPriorityKeywords
    (stripMentionPhrases (mo (stripIntentPatterns text)) (stripIntentPatterns text))
  have h4 := collapseWsStrip_length_le
    (stripPriorityKeywords
      (stripMentionPhrases (mo (stripIntentPatterns text)) (stripIntentPatterns text)))
  show (collapseWsStrip _).length ≤ text.length
  omega

/-- C8 counterexample: on the text "crcrearear abcdefgh" the first
extraction strips the inner "crear" occurrence, and the deletion glues
the surrounding characters into a fresh "crear", so the produced title
is "crear abcdefgh" and a second extraction strips it again, returning
"abcdefgh" instead of the same title. -/
theorem c8_counterexample :
    extract_title extract_client_mentions
        (extract_title extract_client_mentions "crcrearear abcdefgh" "CREAR") "CREAR"
      ≠ extract_title extract_client_mentions "crcrearear abcdefgh" "CREAR" := by
  decide

/-- C8 amended: a second application of _extract_title returns the
produced title unchanged exactly when that title is a fixed point of
the stripping pipeline or its stripped remainder is shorter than five
characters; outside those conditions the second application changes the
title (the produced title is at most 200 characters, its clean form is
no longer, so the truncation is the identity on both and the branch
taken determines the result exactly). Idempotence fails in general, see
the counterexample. -/
theorem c8_idempotent_on_fixed_clean (mo : String → List String) (text intent : String) :
    extract_title mo (extract_title mo text intent) intent = extract_title mo text intent
      ↔ (cleanTitle mo (extract_title mo text intent) = extract_title mo text intent
         ∨ (cleanTitle mo (extract_title mo text intent)).length < 5) := by
  have hlen : (extract_title mo text intent).length ≤ 200 :=
    extract_title_length_le mo text intent
  have hclen : (cleanTitle mo (extract_title mo text intent)).length ≤ 200 :=
    Nat.le_trans (cleanTitle_length_le mo _) hlen
  constructor
  · intro h
    by_cases hs : (cleanTitle mo (extract_title mo text intent)).length < 5
    · exact Or.inr hs
    · left
      have e : extract_title mo (extract_title mo text intent) intent
          = strTake (cleanTitle mo (extract_title mo text intent)) 200 := by
        show strTake (if (cleanTitle mo (extract_title mo text intent)).length < 5
            then extract_title mo text intent
            else cleanTitle mo (extract_title mo text intent)) 200 = _
        rw [if_neg hs]
      have h2 : strTake (cleanTitle mo (extract_title mo text intent)) 200
          = extract_title mo text intent := by rw [← e, h]
      exact (strTake_eq_self hclen).symm.trans h2
  · intro h
    rcases h with hfix | hshort
    · show strTake (if (cleanTitle mo (extract_title mo text intent)).length < 5
          then extract_title mo text intent
          else cleanTitle mo (extract_title mo text intent)) 200
        = extract_title mo text intent
      rw [hfix, ite_self, strTake_eq_self hlen]
    · show strTake (if (cleanTitle mo (extract_title mo text intent)).length < 5
          then extract_title mo text intent
          else cleanTitle mo (extract_title mo text intent)) 200
        = extract_title mo text intent
      rw [if_pos hshort, strTake_eq_self hlen]

/-- C8 witness: both directions at the text "zzzzz", which the pipeline
leaves untouched: the produced title is a fixed point of the stripping
pipeline, so the second application preserves it. -/
theorem c8_idempotent_on_fixed_clean_witness :
    extract_title extract_client_mentions
        (extract_title extract_client_mentions "zzzzz" "CREAR") "CREAR"
      = extract_title extract_client_mentions "zzzzz" "CREAR" :=
  (c8_idempotent_on_fixed_clean extract_client_mentions "zzzzz" "CREAR").mpr
    (Or.inl (by decide))


/-- The best similarity score over a list of candidate strings (the
claim-side quantity for the threshold tiering). -/
def bestScore (ratio : String → String → Nat) (q : String) (choices : List String) : Nat :=
  choices.foldr (fun c m => max (ratio q c) m) 0

/-- The score at the head of a scored list, 0 when empty. -/
def hdScore : List (String × Nat) → Nat
  | [] => 0
  | x :: _ => x.2

theorem mem_insTop (a x : String × Nat) : ∀ l : List (String × Nat),
    a ∈ insTop x l ↔ a = x ∨ a ∈ l
  | [] => by simp [insTop]
  | y :: ys => by
    by_cases h : x.2 ≥ y.2
    · simp [insTop, h]
    · simp only [insTop, if_neg h, List.mem_cons, mem_insTop a x ys]
      tauto

theorem mem_sortByScore (a : String × Nat) : ∀ l : List (String × Nat),
    a ∈ sortByScore l ↔ a ∈ l
  | [] => Iff.rfl
  | x :: xs => by
    simp [sortByScore, mem_insTop, mem_sortByScore a xs]

theorem sortByScore_ne_nil (x : String × Nat) (xs : List (String × Nat)) :
    sortByScore (x :: xs) ≠ [] := by
  simp only [sortByScore]
  cases h : sortByScore xs with
  | nil => simp [insTop]
  | cons y ys =>
    by_cases h2 : x.2 ≥ y.2 <;> simp [insTop, h2]

theorem hdScore_insTop (x : String × Nat) : ∀ l : List (String × Nat),
    hdScore (insTop x l) = max x.2 (hdScore l)
  | [] => by simp [insTop, hdScore]
  | y :: ys => by
    by_cases h : x.2 ≥ y.2
    · simp [insTop, h, hdScore, Nat.max_eq_left h]
    · have : y.2 ≥ x.2 := by omega
      simp [insTop, h, hdScore, Nat.max_eq_right this]

theorem hdScore_sortByScore : ∀ l : List (String × Nat),
    hdScore (sortByScore l) = l.foldr (fun p m => max p.2 m) 0
  | [] => rfl
  | x :: xs => by
    simp [sortByScore, hdScore_insTop, hdScore_sortByScore xs]

theorem bestScore_eq_foldr (ratio : String → String → Nat) (q : String)
    (choices : List String) :
    (choices.map (fun c => (c, ratio q c))).foldr (fun p m => max p.2 m) 0
      = bestScore ratio q choices := by
  rw [List.foldr_map]
  rfl

theorem le_bestScore_of_mem (ratio : String → String → Nat) (q x : String) :
    ∀ choices : List String, x ∈ choices → ratio q x ≤ bestScore ratio q choices
  | [], h => by simp at h
  | c :: cs, h => by
    rcases List.mem_cons.mp h with rfl | h2
    · simp only [bestScore, List.foldr_cons]
      omega
    · have := le_bestScore_of_mem ratio q x cs h2
      simp only [bestScore, List.foldr_cons] at this ⊢
      omega

theorem allNamesOf_id_mem (t : Nat × String × String) :
    ∀ clients : List ClientRow, t ∈ allNamesOf clients → ∃ c, c ∈ clients ∧ c.id = t.1
  | [], h => by simp [allNamesOf] at h
  | c :: rest, h => by
    simp only [allNamesOf, List.mem_cons, List.mem_append, List.mem_map] at h
    rcases h with rfl | ⟨a, _, rfl⟩ | h3
    · exact ⟨c, List.mem_cons_self c rest, rfl⟩
    · exact ⟨c, List.mem_cons_self c rest, rfl⟩
    · obtain ⟨d, hd, he⟩ := allNamesOf_id_mem t rest h3
      exact ⟨d, List.mem_cons_of_mem c hd, he⟩

theorem name_tuple_mem_allNamesOf (c : ClientRow) :
    ∀ clients : List ClientRow, c ∈ clients →
      (c.id, c.name, c.normalized_name) ∈ allNamesOf clients
  | [], h => by simp at h
  | d :: rest, h => by
    rcases List.mem_cons.mp h with rfl | h2
    · simp [allNamesOf]
    · simp only [allNamesOf, List.mem_cons, List.mem_append]
      exact Or.inr (Or.inr (name_tuple_mem_allNamesOf c rest h2))

theorem findExact_some (q : String) (c : ClientRow) :
    ∀ clients : List ClientRow, findExact q clients = some c →
      c ∈ clients ∧ c.normalized_name = q
  | [], h => by simp [findExact] at h
  | d :: rest, h => by
    simp only [findExact] at h
    split at h
    · rename_i h2
      obtain rfl : d = c := Option.some.inj h
      exact ⟨List.mem_cons_self _ _, by simpa using h2⟩
    · obtain ⟨hm, he⟩ := findExact_some q c rest h
      exact ⟨List.mem_cons_of_mem d hm, he⟩

theorem findExact_none (q : String) :
    ∀ clients : List ClientRow, findExact q clients = none →
      ∀ c ∈ clients, c.normalized_name ≠ q
  | [], _, c, hc => by simp at hc
  | d :: rest, h, c, hc => by
    simp only [findExact] at h
    split at h
    · exact absurd h (by simp)
    · rename_i h2
      rcases List.mem_cons.mp hc with rfl | h3
      · simpa using h2
      · exact findExact_none q rest h c h3


theorem buildCandidatesList_cons_ne_nil (allNames : List (Nat × String × String))
    (clients : List ClientRow) (m0 : String × Nat) (rest : List (String × Nat))
    (hmem : ∃ t ∈ allNames, t.2.2 = m0.1)
    (hid : ∀ t ∈ allNames, ∃ c, c ∈ clients ∧ c.id = t.1) :
    buildCandidatesList allNames clients (m0 :: rest) ≠ [] := by
  obtain ⟨t, ht, he⟩ := hmem
  have h1 : (allNames.find? (fun t => t.2.2 == m0.1)).isSome := by
    rw [List.find?_isSome]
    exact ⟨t, ht, by simp [he]⟩
  obtain ⟨t2, ht2⟩ := Option.isSome_iff_exists.mp h1
  obtain ⟨c, hc, hcid⟩ := hid t2 (List.mem_of_find?_eq_some ht2)
  have h2 : (clients.find? (fun d => d.id == t2.1)).isSome := by
    rw [List.find?_isSome]
    exact ⟨c, hc, by simp [hcid]⟩
  obtain ⟨c2, hc2⟩ := Option.isSome_iff_exists.mp h2
  simp [buildCandidatesList, List.filterMap_cons, ht2, hc2]


/-- C4: for every scorer with ratio(s,s)=100, thresholds with
CONFIRM ≤ AUTO ≤ 100, a positive candidate cap and a nonempty registry,
_fuzzy_match_client obeys the tiering on the best similarity score over
all candidate strings (canonical names and aliases): below CONFIRM the
action is create; in [CONFIRM, AUTO) the action is confirm and a
nonempty ranked candidate list is attached; at or above AUTO the action
is auto; and an exact normalized-name match yields action auto with
confidence 100. -/
theorem c4_threshold_tiering (ratio : String → String → Nat)
    (autoT confirmT maxC : Nat) (clients : List ClientRow) (name : String)
    (hcl : clients ≠ [])
    (hrefl : ∀ s, ratio s s = 100)
    (hca : confirmT ≤ autoT) (ha100 : autoT ≤ 100) (hmc : 1 ≤ maxC) :
    (bestScore ratio (normalize_text name) ((allNamesOf clients).map (fun t => t.2.2)) < confirmT →
      (fuzzy_match_client ratio autoT confirmT maxC clients name).action = "create") ∧
    (confirmT ≤ bestScore ratio (normalize_text name) ((allNamesOf clients).map (fun t => t.2.2)) →
      bestScore ratio (normalize_text name) ((allNamesOf clients).map (fun t => t.2.2)) < autoT →
      (fuzzy_match_client ratio autoT confirmT maxC clients name).action = "confirm" ∧
      (fuzzy_match_client ratio autoT confirmT maxC clients name).candidates ≠ []) ∧
    (autoT ≤ bestScore ratio (normalize_text name) ((allNamesOf clients).map (fun t => t.2.2)) →
      (fuzzy_match_client ratio autoT confirmT maxC clients name).action = "auto") ∧
    ((∃ c ∈ clients, c.normalized_name = normalize_text name) →
      (fuzzy_match_client ratio autoT confirmT maxC clients name).action = "auto" ∧
      (fuzzy_match_client ratio autoT confirmT maxC clients name).confidence = 100) := by
  have hne : clients.isEmpty = false := by
    cases clients with
    | nil => exact absurd rfl hcl
    | cons a l => rfl
  have hB100 : ∀ c, c ∈ clients → c.normalized_name = normalize_text name →
      100 ≤ bestScore ratio (normalize_text name)
        ((allNamesOf clients).map (fun t => t.2.2)) := by
    intro c hc hcn
    have hmem := name_tuple_mem_allNamesOf c clients hc
    have hmem2 : c.normalized_name ∈ (allNamesOf clients).map (fun t => t.2.2) :=
      List.mem_map.mpr ⟨_, hmem, rfl⟩
    have hle := le_bestScore_of_mem ratio (normalize_text name) c.normalized_name _ hmem2
    rwa [hcn, hrefl] at hle
  cases hex : findExact (normalize_text name) clients with
  | some c =>
    obtain ⟨hcmem, hcn⟩ := findExact_some _ c clients hex
    have h100 := hB100 c hcmem hcn
    have hact : (fuzzy_match_client ratio autoT confirmT maxC clients name).action = "auto" ∧
        (fuzzy_match_client ratio autoT confirmT maxC clients name).confidence = 100 := by
      constructor <;> simp [fuzzy_match_client, hne, hex]
    refine ⟨fun h => absurd h (by omega), fun h1 h2 => absurd h2 (by omega),
      fun _ => hact.1, fun _ => hact⟩
  | none =>
    have hchne : ((allNamesOf clients).map (fun t => t.2.2)) ≠ [] := by
      cases clients with
      | nil => exact absurd rfl hcl
      | cons a l => simp [allNamesOf]
    obtain ⟨x, xs, hxs⟩ :
        ∃ x xs, ((allNamesOf clients).map (fun t => t.2.2)).map
          (fun c => (c, ratio (normalize_text name) c)) = x :: xs := by
      cases hs : ((allNamesOf clients).map (fun t => t.2.2)).map
          (fun c => (c, ratio (normalize_text name) c)) with
      | nil => exact absurd (List.map_eq_nil_iff.mp hs) hchne
      | cons x xs => exact ⟨x, xs, rfl⟩
    obtain ⟨m, rfl⟩ : ∃ m, maxC = m + 1 := ⟨maxC - 1, by omega⟩
    cases hsort : sortByScore (((allNamesOf clients).map (fun t => t.2.2)).map
        (fun c => (c, ratio (normalize_text name) c))) with
    | nil =>
      rw [hxs] at hsort
      exact absurd hsort (sortByScore_ne_nil x xs)
    | cons p tail =>
      have hp2 : p.2 = bestScore ratio (normalize_text name)
          ((allNamesOf clients).map (fun t => t.2.2)) := by
        have h1 := hdScore_sortByScore (((allNamesOf clients).map (fun t => t.2.2)).map
          (fun c => (c, ratio (normalize_text name) c)))
        rw [hsort] at h1
        simp only [hdScore] at h1
        rw [h1, bestScore_eq_foldr]
      have hmat : processExtract ratio (normalize_text name)
          ((allNamesOf clients).map (fun t => t.2.2)) (m + 1) = p :: tail.take m := by
        show (sortByScore _).take (m + 1) = _
        rw [hsort, List.take_succ_cons]
      have hpmem : p ∈ sortByScore (((allNamesOf clients).map (fun t => t.2.2)).map
          (fun c => (c, ratio (normalize_text name) c))) := by
        rw [hsort]; exact List.mem_cons_self _ _
      have hpsc := (mem_sortByScore p _).mp hpmem
      obtain ⟨ch, hch2, hpe⟩ := List.mem_map.mp hpsc
      obtain ⟨t, ht, hte⟩ := List.mem_map.mp hch2
      have hmemp : ∃ t2 ∈ allNamesOf clients, t2.2.2 = p.1 :=
        ⟨t, ht, by rw [hte, ← hpe]⟩
      have hid : ∀ t2 ∈ allNamesOf clients, ∃ c, c ∈ clients ∧ c.id = t2.1 :=
        fun t2 ht2 => allNamesOf_id_mem t2 clients ht2
      refine ⟨?_, ?_, ?_, ?_⟩
      · intro hlt
        simp [fuzzy_match_client, hne, hex, hmat, hp2, hlt]
      · intro hge hlt
        have hnc : ¬ (bestScore ratio (normalize_text name)
            ((allNamesOf clients).map (fun t => t.2.2)) < confirmT) := by omega
        have hna : ¬ (autoT ≤ bestScore ratio (normalize_text name)
            ((allNamesOf clients).map (fun t => t.2.2))) := by omega
        constructor
        · simp [fuzzy_match_client, hne, hex, hmat, hp2, hnc, hna]
        · have hred : (fuzzy_match_client ratio autoT confirmT (m + 1) clients name).candidates
              = buildCandidatesList (allNamesOf clients) clients
                  (p :: List.take m (List.take m tail)) := by
            simp [fuzzy_match_client, hne, hex, hmat, hp2, hnc, hna]
          rw [hred]
          exact buildCandidatesList_cons_ne_nil _ _ _ _ hmemp hid
      · intro hge
        have hnc : ¬ (bestScore ratio (normalize_text name)
            ((allNamesOf clients).map (fun t => t.2.2)) < confirmT) := by omega
        have hya : autoT ≤ bestScore ratio (normalize_text name)
            ((allNamesOf clients).map (fun t => t.2.2)) := hge
        simp [fuzzy_match_client, hne, hex, hmat, hp2, hnc, hya]
      · intro ⟨c, hc, hcn⟩
        exact absurd hcn (findExact_none _ clients hex c hc)


/-- A registry with the single client Acme. -/
def acmeRow : ClientRow :=
  { id := 1, name := "Acme", normalized_name := "acme", aliases := [] }

/-- C4 witness: the three tiers at concrete scorers over the
single-client registry Acme: best 42 < 70 creates, best 80 in [70,90)
confirms with candidates, and the exact match auto-accepts at 100. -/
theorem c4_threshold_tiering_witness :
    (fuzzy_match_client (fun a b => if a == b then 100 else 42) 90 70 5
        [acmeRow] "zzz").action = "create" ∧
    ((fuzzy_match_client (fun a b => if a == b then 100 else 80) 90 70 5
        [acmeRow] "zzz").action = "confirm" ∧
      (fuzzy_match_client (fun a b => if a == b then 100 else 80) 90 70 5
        [acmeRow] "zzz").candidates ≠ []) ∧
    ((fuzzy_match_client (fun a b => if a == b then 100 else 42) 90 70 5
        [acmeRow] "Acme").action = "auto" ∧
      (fuzzy_match_client (fun a b => if a == b then 100 else 42) 90 70 5
        [acmeRow] "Acme").confidence = 100) := by
  refine ⟨?_, ?_, ?_⟩
  · exact (c4_threshold_tiering (fun a b => if a == b then 100 else 42) 90 70 5
      [acmeRow] "zzz" (by simp) (fun s => by simp) (by omega) (by omega) (by omega)).1
      (by decide)
  · exact (c4_threshold_tiering (fun a b => if a == b then 100 else 80) 90 70 5
      [acmeRow] "zzz" (by simp) (fun s => by simp) (by omega) (by omega) (by omega)).2.1
      (by decide) (by decide)
  · exact (c4_threshold_tiering (fun a b => if a == b then 100 else 42) 90 70 5
      [acmeRow] "Acme" (by simp) (fun s => by simp) (by omega) (by omega) (by omega)).2.2.2
      ⟨acmeRow, by simp, by decide⟩

end Agente
